import Mathlib

/-!
Verification of the metronome step sequencer core.

The definitions below are a shallow embedding of the JavaScript source
(`src/app.js` and its revisions): the look-ahead scheduler loop, the
per-onset note scheduling (sound renderer dispatch and playhead sync),
the tap-tempo estimator, the tempo setters, and the pattern grid toggle.
Times and tempo ratios are modelled as rationals; timestamps from
`Date.now()` are integers (milliseconds).
-/

namespace Metronome

/-- MIN_BPM from the source configuration. -/
def MIN_BPM : ℤ := 30

/-- MAX_BPM from the source configuration. -/
def MAX_BPM : ℤ := 250

/-! ## Pattern grid

The grid is a JavaScript object keyed by strings `high-i`, `mid-i`, `low-i`
(hi-hat, snare, kick rows).  We embed keys as `Row × ℕ` pairs and the
object as an association list; a missing key reads as `false`
(JavaScript `undefined` is falsy).  The object-spread update
`{ ...prev, [key]: !prev[key] }` is embedded as a cons that shadows
earlier bindings of the same key.
-/

/-- Grid rows: `high` (hi-hat), `mid` (snare), `low` (kick). -/
inductive Row
  | high
  | mid
  | low
deriving DecidableEq

/-- Voices of the sound renderer. -/
inductive Voice
  | kick
  | snare
  | hat
deriving DecidableEq

/-- The grid row that triggers a given voice in scheduleNote. -/
def rowOf : Voice → Row
  | Voice.kick => Row.low
  | Voice.snare => Row.mid
  | Voice.hat => Row.high

/-- Pattern grid: an association list from (row, column) keys to booleans. -/
abbrev Grid := List ((Row × ℕ) × Bool)

/-- Reading `grid[key]` in a boolean context: first binding wins, a missing
key is falsy. -/
def gridGet (g : Grid) (k : Row × ℕ) : Bool :=
  match g with
  | [] => false
  | (k', b) :: rest => if k' = k then b else gridGet rest k

/-- toggleGridParams from the source: `setGrid(prev => ({ ...prev, [key]: !prev[key] }))`. -/
def toggleGridParams (g : Grid) (row : Row) (col : ℕ) : Grid :=
  ((row, col), ! gridGet g (row, col)) :: g

/-! ## scheduleNote: renderer dispatch and playhead sync -/

/-- Sound renderer calls made by scheduleNote for one onset: `playSound`
is invoked for each of the three rows whose grid entry at `stepNumber`
is truthy, in source order hat, snare, kick. -/
def scheduleNote (g : Grid) (stepNumber : ℕ) (time : ℚ) : List (Voice × ℚ) :=
  (if gridGet g (Row.high, stepNumber) then [(Voice.hat, time)] else []) ++
  (if gridGet g (Row.mid, stepNumber) then [(Voice.snare, time)] else []) ++
  (if gridGet g (Row.low, stepNumber) then [(Voice.kick, time)] else [])

/-- Renderer calls produced by a list of onsets, one scheduleNote call per
onset in order. -/
def rendererCalls (g : Grid) : List (ℕ × ℚ) → List (Voice × ℚ)
  | [] => []
  | (s, t) :: rest => scheduleNote g s t ++ rendererCalls g rest

/-- Playhead sync delay in milliseconds: the source computes
`visualDelay = (time - currentTime) * 1000` and arms the timeout with
`Math.max(0, visualDelay)`. -/
def visualDelayMs (time now : ℚ) : ℚ :=
  max 0 ((time - now) * 1000)

/-- Playhead sync fire-time behaviour: the timeout callback runs
`if (isPlayingRef.current) setCurrentStep(stepNumber)`, so the
step-highlight signal is emitted only when playback is still running
at fire time. -/
def playheadFire (isPlayingAtFire : Bool) (stepNumber : ℕ) : Option ℕ :=
  if isPlayingAtFire then some stepNumber else none

/-! ## Look-ahead scheduler -/

/-- Schedule cursor: `nextNoteTimeRef` and `stepRef` from the source. -/
structure Cursor where
  nextNoteTime : ℚ
  stepIndex : ℕ
deriving DecidableEq

/-- The scheduler while loop:
`while (nextNoteTime < now + scheduleAheadTime) { scheduleNote(step, nextNoteTime); nextNoteTime += secondsPerStep; step = (step + 1) % beats; }`.
Returns the emitted (stepIndex, onsetTime) pairs and the final cursor.
The loop is defined under the assumption `0 < d` (the source guarantees a
positive seconds-per-step whenever the tempo is positive), which makes it
terminating. -/
def schedLoop (limit d : ℚ) (hd : 0 < d) (beats : ℕ) (t : ℚ) (s : ℕ) :
    List (ℕ × ℚ) × Cursor :=
  if h : t < limit then
    let rest := schedLoop limit d hd beats (t + d) ((s + 1) % beats)
    ((s, t) :: rest.1, rest.2)
  else
    ([], ⟨t, s⟩)
termination_by (⌈(limit - t) / d⌉).toNat
decreasing_by
  have h0 : (0 : ℚ) < (limit - t) / d := div_pos (by linarith) hd
  have h1 : (limit - (t + d)) / d = (limit - t) / d - 1 := by
    field_simp
    ring
  have h2 : ⌈(limit - (t + d)) / d⌉ = ⌈(limit - t) / d⌉ - 1 := by
    rw [h1, Int.ceil_sub_one]
  have h3 : 0 < ⌈(limit - t) / d⌉ := Int.ceil_pos.mpr h0
  simp only [h2]
  omega

/-- One scheduler tick (`scheduler` in the source): computes
`secondsPerBeat = 60 / bpm` and `secondsPerStep = secondsPerBeat / subdivision`,
and runs the look-ahead loop with horizon `scheduleAheadTime = 0.1` only
when playback is running; otherwise nothing is emitted and the cursor is
untouched. -/
def scheduler (bpm : ℚ) (sub beats : ℕ) (hbpm : 0 < bpm) (hsub : 0 < sub)
    (isPlaying : Bool) (now : ℚ) (c : Cursor) : List (ℕ × ℚ) × Cursor :=
  let secondsPerBeat : ℚ := 60 / bpm
  let secondsPerStep : ℚ := secondsPerBeat / (sub : ℚ)
  if isPlaying then
    schedLoop (now + 1/10) secondsPerStep
      (div_pos (div_pos (by norm_num) hbpm) (Nat.cast_pos.mpr hsub))
      beats c.nextNoteTime c.stepIndex
  else
    ([], c)

/-- Repeated scheduler ticks while playing: each element of `nows` is the
audio-clock reading of one tick; onsets are concatenated in order and the
cursor is threaded through. -/
def schedulerRun (bpm : ℚ) (sub beats : ℕ) (hbpm : 0 < bpm) (hsub : 0 < sub) :
    List ℚ → Cursor → List (ℕ × ℚ) × Cursor
  | [], c => ([], c)
  | now :: rest, c =>
    let r := scheduler bpm sub beats hbpm hsub true now c
    let r2 := schedulerRun bpm sub beats hbpm hsub rest r.2
    (r.1 ++ r2.1, r2.2)

/-! ## Tap tempo estimator -/

/-- Consecutive inter-tap intervals: `newTaps[i + 1] - newTaps[i]` for
`i = 0 .. length - 2`. -/
def intervalsOf : List ℤ → List ℤ
  | [] => []
  | [_] => []
  | a :: b :: rest => (b - a) :: intervalsOf (b :: rest)

/-- Clamp to the BPM range: `Math.min(Math.max(newBpm, MIN_BPM), MAX_BPM)`. -/
def clampBpm (b : ℤ) : ℤ :=
  min (max b MIN_BPM) MAX_BPM

/-- BPM computed from a full tap window:
`avgInterval = intervals.sum / intervals.length`,
`newBpm = Math.round(60000 / avgInterval)`, then clamp.
When the average interval is zero, the floating-point division of the
source yields positive infinity, which the clamp turns into MAX_BPM;
the embedding makes that case explicit. -/
def tapBpmOf (newTaps : List ℤ) : ℤ :=
  let intervals := intervalsOf newTaps
  let avgInterval : ℚ := (intervals.sum : ℚ) / (intervals.length : ℚ)
  if avgInterval = 0 then MAX_BPM
  else clampBpm (round ((60000 : ℚ) / avgInterval))

/-- Tap estimator state: the tap-time window and the current tempo. -/
structure TapState where
  tapTimes : List ℤ
  bpm : ℤ
deriving DecidableEq

/-- Window produced by a non-timeout tap: `newTaps = [...prev, now]`, then
`if (newTaps.length > 5) newTaps.shift()` drops the oldest entry. -/
def windowAfter (st : TapState) (now : ℤ) : List ℤ :=
  let n1 := st.tapTimes ++ [now]
  if 5 < n1.length then n1.tail else n1

/-- handleTap from the source: reset the window on a gap above 3000 ms,
otherwise append (capping the window at five entries by shifting the
oldest) and, once the window has at least five entries, write the
estimated tempo. -/
def handleTap (now : ℤ) (st : TapState) : TapState :=
  if st.tapTimes ≠ [] ∧ 3000 < now - st.tapTimes.getLastD 0 then
    { tapTimes := [now], bpm := st.bpm }
  else
    let newTaps := windowAfter st now
    if 5 ≤ newTaps.length then
      { tapTimes := newTaps, bpm := tapBpmOf newTaps }
    else
      { tapTimes := newTaps, bpm := st.bpm }

/-- Fold a sequence of taps through handleTap. -/
def tapSeq (ts : List ℤ) (st : TapState) : TapState :=
  ts.foldl (fun s t => handleTap t s) st

/-! ## Tempo setters -/

/-- Parsed state of the tempo input field: empty string, non-numeric text,
or a parsed integer. -/
inductive BpmInput
  | empty
  | invalid
  | num (v : ℤ)

/-- handleBpmChange from the source: an empty field stores the empty
placeholder, unparsable text leaves the tempo unchanged, and a number is
clamped only from above (`if (val > MAX_BPM) val = MAX_BPM`).
`none` models the empty-string tempo value. -/
def handleBpmChange : BpmInput → Option ℤ → Option ℤ
  | BpmInput.empty, _ => none
  | BpmInput.invalid, b => b
  | BpmInput.num v, _ => some (if MAX_BPM < v then MAX_BPM else v)

/-- handleBpmBlur from the source: on blur an empty or below-minimum value
is replaced by MIN_BPM, otherwise the value is kept.  Returns the tempo
value in effect after the blur. -/
def handleBpmBlur : Option ℤ → ℤ
  | none => MIN_BPM
  | some v => if v < MIN_BPM then MIN_BPM else v

/-- updateBpmFromDelta from the source (dial drag): an empty or invalid
previous value is read as MIN_BPM, the pointer delta is added, the result
is clamped to [MIN_BPM, MAX_BPM] and rounded. -/
def updateBpmFromDelta (change : ℚ) (prev : Option ℤ) : ℤ :=
  let c : ℚ := match prev with
    | none => (MIN_BPM : ℚ)
    | some v => (v : ℚ)
  round (min (max (c + change) (MIN_BPM : ℚ)) (MAX_BPM : ℚ))

/-! ## Scheduler loop characterization -/

/-- Closed form of the scheduler while loop: starting from time `t` and a
step index `s < beats`, the loop emits exactly
`N = ⌈(limit - t) / d⌉.toNat` onsets; the k-th onset is at time
`t + k * d` with step index `(s + k) % beats`, and the cursor ends at
`(t + N * d, (s + N) % beats)`. -/
theorem schedLoop_eq (limit d : ℚ) (hd : 0 < d) (beats : ℕ) (t : ℚ) (s : ℕ)
    (hb : 0 < beats) (hs : s < beats) :
    schedLoop limit d hd beats t s =
      ((List.range (⌈(limit - t) / d⌉.toNat)).map
          (fun k => ((s + k) % beats, t + (k : ℚ) * d)),
        ⟨t + ((⌈(limit - t) / d⌉.toNat : ℕ) : ℚ) * d,
         (s + ⌈(limit - t) / d⌉.toNat) % beats⟩) := by
  generalize hN : (⌈(limit - t) / d⌉).toNat = N
  induction N generalizing t s with
  | zero =>
    have hnlt : ¬ t < limit := by
      intro hlt
      have h0 : (0 : ℚ) < (limit - t) / d := div_pos (by linarith) hd
      have h3 : 0 < ⌈(limit - t) / d⌉ := Int.ceil_pos.mpr h0
      omega
    rw [schedLoop, dif_neg hnlt]
    simp [Nat.mod_eq_of_lt hs]
  | succ n ih =>
    have h1 : (limit - (t + d)) / d = (limit - t) / d - 1 := by
      field_simp
      ring
    have h2 : ⌈(limit - (t + d)) / d⌉ = ⌈(limit - t) / d⌉ - 1 := by
      rw [h1, Int.ceil_sub_one]
    have hlt : t < limit := by
      by_contra hnlt
      have hle : (limit - t) / d ≤ 0 :=
        div_nonpos_iff.mpr (Or.inr ⟨by linarith, hd.le⟩)
      have h4 : ⌈(limit - t) / d⌉ ≤ 0 := Int.ceil_le.mpr (by exact_mod_cast hle)
      omega
    have hN' : (⌈(limit - (t + d)) / d⌉).toNat = n := by omega
    have hs' : (s + 1) % beats < beats := Nat.mod_lt _ hb
    rw [schedLoop, dif_pos hlt]
    rw [ih (t + d) ((s + 1) % beats) hs' hN']
    refine Prod.ext ?_ ?_
    · show (s, t) :: _ = _
      rw [List.range_succ_eq_map, List.map_cons, List.map_map]
      refine congrArg₂ _ ?_ ?_
      · simp [Nat.mod_eq_of_lt hs]
      · refine congrArg₂ _ ?_ rfl
        funext k
        refine congrArg₂ _ ?_ ?_
        · show ((s + 1) % beats + k) % beats = (s + (k + 1)) % beats
          conv_rhs => rw [show s + (k + 1) = (s + 1) + k by omega]
          rw [Nat.mod_add_mod]
        · show t + d + (k : ℚ) * d = t + ((k + 1 : ℕ) : ℚ) * d
          push_cast
          ring
    · show Cursor.mk _ _ = Cursor.mk _ _
      refine congrArg₂ _ ?_ ?_
      · push_cast
        ring
      · rw [Nat.mod_add_mod]
        exact congrArg (· % beats) (by omega)

/-- Splitting a mapped range at an intermediate point. -/
theorem range_map_add {α : Type} (f : ℕ → α) (a b : ℕ) :
    (List.range (a + b)).map f =
      (List.range a).map f ++ (List.range b).map (fun k => f (a + k)) := by
  induction b with
  | zero => simp
  | succ n ih =>
    rw [show a + (n + 1) = (a + n) + 1 by omega, List.range_succ, List.range_succ]
    simp [ih]

/-- Step indices over a run of scheduler ticks: if the cursor starts at a
step index congruent to `m` modulo `beats`, then the emitted step-index
sequence is `(m + 0) % beats, (m + 1) % beats, ...` and the final step
index continues the count. -/
theorem schedulerRun_steps (bpm : ℚ) (sub beats : ℕ) (hbpm : 0 < bpm)
    (hsub : 0 < sub) (hb : 0 < beats) (nows : List ℚ) (c : Cursor) (m : ℕ)
    (hc : c.stepIndex = m % beats) :
    ((schedulerRun bpm sub beats hbpm hsub nows c).1.map Prod.fst =
      (List.range (schedulerRun bpm sub beats hbpm hsub nows c).1.length).map
        (fun k => (m + k) % beats))
    ∧ (schedulerRun bpm sub beats hbpm hsub nows c).2.stepIndex =
        (m + (schedulerRun bpm sub beats hbpm hsub nows c).1.length) % beats := by
  induction nows generalizing c m with
  | nil =>
    simp [schedulerRun, hc]
  | cons now rest ih =>
    have hs : c.stepIndex < beats := hc ▸ Nat.mod_lt _ hb
    have htick :
        scheduler bpm sub beats hbpm hsub true now c =
          ((List.range (⌈(now + 1/10 - c.nextNoteTime) / (60 / bpm / (sub : ℚ))⌉.toNat)).map
              (fun k => ((c.stepIndex + k) % beats,
                c.nextNoteTime + (k : ℚ) * (60 / bpm / (sub : ℚ)))),
            ⟨c.nextNoteTime +
              ((⌈(now + 1/10 - c.nextNoteTime) / (60 / bpm / (sub : ℚ))⌉.toNat : ℕ) : ℚ) *
                (60 / bpm / (sub : ℚ)),
             (c.stepIndex + ⌈(now + 1/10 - c.nextNoteTime) / (60 / bpm / (sub : ℚ))⌉.toNat) %
               beats⟩) := by
      unfold scheduler
      rw [if_pos rfl]
      exact schedLoop_eq _ _ _ beats _ _ hb hs
    set N := (⌈(now + 1/10 - c.nextNoteTime) / (60 / bpm / (sub : ℚ))⌉).toNat with hNdef
    have hstep : (scheduler bpm sub beats hbpm hsub true now c).2.stepIndex
        = (m + N) % beats := by
      rw [htick]
      show (c.stepIndex + N) % beats = (m + N) % beats
      rw [hc, Nat.mod_add_mod]
    obtain ⟨ih1, ih2⟩ := ih (scheduler bpm sub beats hbpm hsub true now c).2 (m + N) hstep
    have hfst : (scheduler bpm sub beats hbpm hsub true now c).1.map Prod.fst
        = (List.range N).map (fun k => (m + k) % beats) := by
      rw [htick]
      show ((List.range N).map _).map Prod.fst = _
      rw [List.map_map]
      refine congrArg₂ _ ?_ rfl
      funext k
      show (c.stepIndex + k) % beats = (m + k) % beats
      rw [hc, Nat.mod_add_mod]
    have hlen1 : (scheduler bpm sub beats hbpm hsub true now c).1.length = N := by
      rw [htick]
      simp
    simp only [schedulerRun]
    constructor
    · rw [List.map_append, hfst, ih1, List.length_append, hlen1, range_map_add]
      refine congrArg₂ _ rfl ?_
      refine congrArg₂ _ ?_ rfl
      funext k
      exact congrArg (· % beats) (by omega)
    · rw [ih2, List.length_append, hlen1]
      exact congrArg (· % beats) (by omega)

/-! ## Tap estimator lemmas -/

/-- A list of n taps has n - 1 consecutive intervals. -/
theorem intervalsOf_length (l : List ℤ) :
    (intervalsOf l).length = l.length - 1 := by
  induction l using intervalsOf.induct with
  | case1 => simp [intervalsOf]
  | case2 a => simp [intervalsOf]
  | case3 a b rest ih => simp only [intervalsOf, List.length_cons, ih]; omega

/-- The clamp keeps every value in the BPM range. -/
theorem clampBpm_bounds (b : ℤ) : MIN_BPM ≤ clampBpm b ∧ clampBpm b ≤ MAX_BPM := by
  simp only [clampBpm, MIN_BPM, MAX_BPM]
  omega

/-- A tap-derived tempo is always inside [MIN_BPM, MAX_BPM], including the
degenerate zero-average case. -/
theorem tapBpmOf_bounds (l : List ℤ) :
    MIN_BPM ≤ tapBpmOf l ∧ tapBpmOf l ≤ MAX_BPM := by
  simp only [tapBpmOf]
  split
  · simp [MIN_BPM, MAX_BPM]
  · exact clampBpm_bounds _

/-- Rounding a rational already inside the BPM range lands on an integer
inside the BPM range. -/
theorem round_bpm_bounds (x : ℚ) (hlo : ((MIN_BPM : ℤ) : ℚ) ≤ x)
    (hhi : x ≤ ((MAX_BPM : ℤ) : ℚ)) :
    MIN_BPM ≤ round x ∧ round x ≤ MAX_BPM := by
  rw [round_eq]
  constructor
  · exact Int.le_floor.mpr (by linarith)
  · have h2 : ⌊x + 1 / 2⌋ < MAX_BPM + 1 := Int.floor_lt.mpr (by push_cast; linarith)
    omega

/-- Non-timeout taps that fill the window to five entries produce a
window of length exactly five. -/
theorem windowAfter_length (st : TapState) (now : ℤ)
    (hlen : st.tapTimes.length = 4 ∨ st.tapTimes.length = 5) :
    (windowAfter st now).length = 5 := by
  simp only [windowAfter]
  rcases hlen with h | h <;>
    simp [List.length_append, h]

/-! ## Claim theorems -/

/-- C1: a scheduler tick while PLAYING emits onsets exactly for those
cursor times strictly below `now + 0.1`; each emission advances
`nextOnsetTime` by `secondsPerStep = (60 / BPM) / subdivision` and the
step index by one modulo `beatsPerCycle`; in particular with BPM = 120,
beatsPerCycle = 4, subdivision = 1 and the cursor at `now`, a single tick
schedules exactly one onset and advances the step index from 0 to 1. -/
theorem scheduler_tick_horizon (bpm : ℚ) (sub beats : ℕ) (hbpm : 0 < bpm)
    (hsub : 0 < sub) (hb : 0 < beats) (now t0 : ℚ) (s0 : ℕ) (hs : s0 < beats) :
    (scheduler bpm sub beats hbpm hsub true now ⟨t0, s0⟩ =
      ((List.range (⌈(now + 1/10 - t0) / (60 / bpm / (sub : ℚ))⌉.toNat)).map
          (fun k => ((s0 + k) % beats, t0 + (k : ℚ) * (60 / bpm / (sub : ℚ)))),
        ⟨t0 + ((⌈(now + 1/10 - t0) / (60 / bpm / (sub : ℚ))⌉.toNat : ℕ) : ℚ) *
            (60 / bpm / (sub : ℚ)),
         (s0 + ⌈(now + 1/10 - t0) / (60 / bpm / (sub : ℚ))⌉.toNat) % beats⟩))
    ∧ (∀ k : ℕ, k < ⌈(now + 1/10 - t0) / (60 / bpm / (sub : ℚ))⌉.toNat ↔
        t0 + (k : ℚ) * (60 / bpm / (sub : ℚ)) < now + 1/10)
    ∧ scheduler 120 1 4 (by norm_num) (by norm_num) true 0 ⟨0, 0⟩ =
        ([(0, 0)], ⟨1/2, 1⟩) := by
  have hd : (0 : ℚ) < 60 / bpm / (sub : ℚ) :=
    div_pos (div_pos (by norm_num) hbpm) (Nat.cast_pos.mpr hsub)
  refine ⟨?_, ?_, ?_⟩
  · unfold scheduler
    rw [if_pos rfl]
    exact schedLoop_eq _ _ _ beats _ _ hb hs
  · intro k
    have h1 : k < (⌈(now + 1/10 - t0) / (60 / bpm / (sub : ℚ))⌉).toNat ↔
        (k : ℤ) < ⌈(now + 1/10 - t0) / (60 / bpm / (sub : ℚ))⌉ := by omega
    rw [h1, Int.lt_ceil, lt_div_iff₀ hd]
    push_cast
    constructor <;> intro <;> linarith
  · unfold scheduler
    rw [if_pos rfl]
    rw [schedLoop, dif_pos (by norm_num)]
    rw [schedLoop, dif_neg (by norm_num)]
    norm_num

/-- C1 witness: the horizon theorem applied at BPM 120, four beats,
subdivision 1, clock 0 and cursor (0, 0). -/
theorem scheduler_tick_horizon_witness :
    (0 : ℚ) < 120 ∧ 0 < 1 ∧ 0 < 4 ∧ (0 : ℕ) < 4 ∧
    scheduler 120 1 4 (by norm_num) (by norm_num) true 0 ⟨0, 0⟩ =
      ([(0, 0)], ⟨1/2, 1⟩) :=
  ⟨by norm_num, by norm_num, by norm_num, by norm_num,
    (scheduler_tick_horizon 120 1 4 (by norm_num) (by norm_num) (by norm_num)
      0 0 0 (by norm_num)).2.2⟩

/-- C2: starting from step index 0, the sequence of step indices emitted
over any run of scheduler ticks is `0 % n, 1 % n, 2 % n, ...`, i.e.
`0, 1, ..., n - 1, 0, 1, ...`, and every emitted index lies below
`n = beatsPerCycle`. -/
theorem scheduler_step_sequence (bpm : ℚ) (sub beats : ℕ) (hbpm : 0 < bpm)
    (hsub : 0 < sub) (hb : 1 ≤ beats) (nows : List ℚ) (t0 : ℚ) :
    ((schedulerRun bpm sub beats hbpm hsub nows ⟨t0, 0⟩).1.map Prod.fst =
      (List.range (schedulerRun bpm sub beats hbpm hsub nows ⟨t0, 0⟩).1.length).map
        (fun k => k % beats))
    ∧ ∀ p ∈ (schedulerRun bpm sub beats hbpm hsub nows ⟨t0, 0⟩).1, p.1 < beats := by
  have h0 : (Cursor.mk t0 0).stepIndex = 0 % beats := by simp
  obtain ⟨h1, _⟩ :=
    schedulerRun_steps bpm sub beats hbpm hsub hb nows ⟨t0, 0⟩ 0 h0
  have h1' : (schedulerRun bpm sub beats hbpm hsub nows ⟨t0, 0⟩).1.map Prod.fst =
      (List.range (schedulerRun bpm sub beats hbpm hsub nows ⟨t0, 0⟩).1.length).map
        (fun k => k % beats) := by
    rw [h1]
    refine congrArg₂ _ ?_ rfl
    funext k
    simp
  refine ⟨h1', ?_⟩
  intro p hp
  have hmem : p.1 ∈ (schedulerRun bpm sub beats hbpm hsub nows ⟨t0, 0⟩).1.map Prod.fst :=
    List.mem_map_of_mem Prod.fst hp
  rw [h1'] at hmem
  obtain ⟨k, _, hk⟩ := List.mem_map.mp hmem
  rw [← hk]
  exact Nat.mod_lt _ hb

/-- C2 witness: the step-sequence theorem applied at BPM 120, four beats,
subdivision 1, two ticks at clock 0 and 1, cursor starting at (0, 0). -/
theorem scheduler_step_sequence_witness :
    (0 : ℚ) < 120 ∧ 0 < 1 ∧ 1 ≤ 4 ∧
    ((schedulerRun 120 1 4 (by norm_num) (by norm_num) [0, 1] ⟨0, 0⟩).1.map Prod.fst =
      (List.range (schedulerRun 120 1 4 (by norm_num) (by norm_num) [0, 1] ⟨0, 0⟩).1.length).map
        (fun k => k % 4)) :=
  ⟨by norm_num, by norm_num, by norm_num,
    (scheduler_step_sequence 120 1 4 (by norm_num) (by norm_num) (by norm_num) [0, 1] 0).1⟩

/-- C5: a scheduler tick invoked while not PLAYING emits no onsets, makes
no sound renderer calls, and leaves the schedule cursor unchanged. -/
theorem scheduler_stopped_noop (bpm : ℚ) (sub beats : ℕ) (hbpm : 0 < bpm)
    (hsub : 0 < sub) (now : ℚ) (c : Cursor) (g : Grid) :
    scheduler bpm sub beats hbpm hsub false now c = ([], c)
    ∧ rendererCalls g (scheduler bpm sub beats hbpm hsub false now c).1 = [] := by
  have h : scheduler bpm sub beats hbpm hsub false now c = ([], c) := by
    simp [scheduler]
  exact ⟨h, by rw [h]; rfl⟩

/-- C5 witness: a stopped tick at BPM 120 with cursor (3, 2) and an empty
grid changes nothing. -/
theorem scheduler_stopped_noop_witness :
    (0 : ℚ) < 120 ∧ 0 < 1 ∧
    scheduler 120 1 4 (by norm_num) (by norm_num) false 0 ⟨3, 2⟩ = ([], ⟨3, 2⟩) :=
  ⟨by norm_num, by norm_num,
    (scheduler_stopped_noop 120 1 4 (by norm_num) (by norm_num) 0 ⟨3, 2⟩ []).1⟩

/-- C6: playhead sync waits `max 0 (t - now)` (the source stores it in
milliseconds) and at fire time emits the step-highlight signal exactly
when playback is still running, so a pending signal is suppressed when
playback has stopped before the delay elapsed. -/
theorem playhead_sync_delay (t now : ℚ) (s : ℕ) :
    visualDelayMs t now = 1000 * max 0 (t - now)
    ∧ playheadFire true s = some s
    ∧ playheadFire false s = none := by
  refine ⟨?_, rfl, rfl⟩
  unfold visualDelayMs
  rcases le_total 0 (t - now) with h | h
  · rw [max_eq_right h, max_eq_right (by nlinarith : (0 : ℚ) ≤ (t - now) * 1000)]
    ring
  · rw [max_eq_left (by nlinarith : (t - now) * 1000 ≤ 0), max_eq_left h]
    ring

/-- C3: when a non-timeout tap brings the window to five entries, the
tempo is set to the rounded value of `60000 / averageInterval` over the
four consecutive inter-tap intervals, clamped to [MIN_BPM, MAX_BPM]; in
particular taps at 0, 500, 1000, 1500, 2000 ms yield tempo 120. -/
theorem tap_tempo_estimate (st : TapState) (now : ℤ)
    (hlen : st.tapTimes.length = 4 ∨ st.tapTimes.length = 5)
    (hto : ¬ (st.tapTimes ≠ [] ∧ 3000 < now - st.tapTimes.getLastD 0))
    (hnz : ((intervalsOf (windowAfter st now)).sum : ℚ) ≠ 0) :
    ((handleTap now st).bpm =
      clampBpm (round ((60000 : ℚ) /
        (((intervalsOf (windowAfter st now)).sum : ℚ) /
          ((intervalsOf (windowAfter st now)).length : ℚ)))))
    ∧ (intervalsOf (windowAfter st now)).length = 4
    ∧ (tapSeq [0, 500, 1000, 1500, 2000] ⟨[], 100⟩).bpm = 120 := by
  have hw5 : (windowAfter st now).length = 5 := windowAfter_length st now hlen
  have hi4 : (intervalsOf (windowAfter st now)).length = 4 := by
    rw [intervalsOf_length, hw5]
  refine ⟨?_, hi4, ?_⟩
  · have havg : (((intervalsOf (windowAfter st now)).sum : ℚ) /
        ((intervalsOf (windowAfter st now)).length : ℚ)) ≠ 0 := by
      rw [hi4]
      exact div_ne_zero hnz (by norm_num)
    simp only [handleTap, if_neg hto, hw5]
    rw [if_pos (by norm_num)]
    simp only [tapBpmOf, if_neg havg]
  · norm_num [tapSeq, handleTap, windowAfter, intervalsOf, tapBpmOf, clampBpm,
      MIN_BPM, MAX_BPM, round_eq, Int.floor_eq_iff]
    simp

/-- C3 witness: the estimate theorem applied to the window [0, 500, 1000,
1500] with a fifth tap at 2000 ms. -/
theorem tap_tempo_estimate_witness :
    ((TapState.mk [0, 500, 1000, 1500] 130).tapTimes.length = 4 ∨
      (TapState.mk [0, 500, 1000, 1500] 130).tapTimes.length = 5)
    ∧ ¬ ((TapState.mk [0, 500, 1000, 1500] 130).tapTimes ≠ [] ∧
        3000 < 2000 - (TapState.mk [0, 500, 1000, 1500] 130).tapTimes.getLastD 0)
    ∧ ((intervalsOf (windowAfter ⟨[0, 500, 1000, 1500], 130⟩ 2000)).sum : ℚ) ≠ 0
    ∧ (tapSeq [0, 500, 1000, 1500, 2000] ⟨[], 100⟩).bpm = 120 :=
  ⟨Or.inl (by decide), by decide, by norm_num [windowAfter, intervalsOf],
    (tap_tempo_estimate ⟨[0, 500, 1000, 1500], 130⟩ 2000 (Or.inl (by decide))
      (by decide) (by norm_num [windowAfter, intervalsOf])).2.2⟩

/-- C4 counterexample: five taps with identical timestamps (all zero, so
the average interval is zero) are NOT discarded: the degenerate fifth tap
stays in the window and a tempo is written, namely the clamp
of the infinite raw value, 250. -/
theorem tap_degenerate_counterexample :
    (handleTap 0 ⟨[0, 0, 0, 0], 120⟩).tapTimes = [0, 0, 0, 0, 0]
    ∧ (handleTap 0 ⟨[0, 0, 0, 0], 120⟩).bpm = 250
    ∧ (handleTap 0 ⟨[0, 0, 0, 0], 120⟩).bpm ≠ 120 := by
  norm_num [handleTap, windowAfter, intervalsOf, tapBpmOf, clampBpm, MAX_BPM]

/-- C4 amended: a zero or negative average interval is not guarded; the
tap is kept in the window and a tempo is written anyway, but the clamp
keeps every written tempo inside [MIN_BPM, MAX_BPM]; a zero-sum interval
window (identical timestamps) writes exactly MAX_BPM. -/
theorem tap_degenerate_clamped (st : TapState) (now : ℤ)
    (hto : ¬ (st.tapTimes ≠ [] ∧ 3000 < now - st.tapTimes.getLastD 0))
    (hlen : 5 ≤ (windowAfter st now).length)
    (hzero : ((intervalsOf (windowAfter st now)).sum : ℚ) = 0) :
    (handleTap now st).tapTimes = windowAfter st now
    ∧ (handleTap now st).bpm = MAX_BPM
    ∧ MIN_BPM ≤ (handleTap now st).bpm ∧ (handleTap now st).bpm ≤ MAX_BPM := by
  have hres : handleTap now st =
      ⟨windowAfter st now, tapBpmOf (windowAfter st now)⟩ := by
    rw [handleTap, if_neg hto]
    simp only [if_pos hlen]
  rw [hres]
  refine ⟨rfl, ?_, ?_⟩
  · simp only [tapBpmOf]
    rw [if_pos (by rw [hzero, zero_div])]
  · exact tapBpmOf_bounds _

/-- C4 amended witness: the degenerate all-zero window. -/
theorem tap_degenerate_clamped_witness :
    (¬ ((TapState.mk [0, 0, 0, 0] 120).tapTimes ≠ [] ∧
        3000 < 0 - (TapState.mk [0, 0, 0, 0] 120).tapTimes.getLastD 0))
    ∧ 5 ≤ (windowAfter ⟨[0, 0, 0, 0], 120⟩ 0).length
    ∧ ((intervalsOf (windowAfter ⟨[0, 0, 0, 0], 120⟩ 0)).sum : ℚ) = 0
    ∧ (handleTap 0 ⟨[0, 0, 0, 0], 120⟩).bpm = MAX_BPM :=
  ⟨by decide, by decide, by norm_num [windowAfter, intervalsOf],
    (tap_degenerate_clamped ⟨[0, 0, 0, 0], 120⟩ 0 (by decide) (by decide)
      (by norm_num [windowAfter, intervalsOf])).2.1⟩

/-- C8: a tap after a gap above 3000 ms resets the window to exactly
[now] without touching the tempo; otherwise the tap is appended, the
oldest entry is dropped once the length would exceed five, and the window
never holds more than five timestamps. -/
theorem tap_window_management (st : TapState) (now : ℤ) :
    ((st.tapTimes ≠ [] ∧ 3000 < now - st.tapTimes.getLastD 0) →
      (handleTap now st).tapTimes = [now] ∧ (handleTap now st).bpm = st.bpm)
    ∧ (¬ (st.tapTimes ≠ [] ∧ 3000 < now - st.tapTimes.getLastD 0) →
      (handleTap now st).tapTimes =
        (if 5 < (st.tapTimes ++ [now]).length then (st.tapTimes ++ [now]).tail
         else st.tapTimes ++ [now]))
    ∧ (st.tapTimes.length ≤ 5 → (handleTap now st).tapTimes.length ≤ 5) := by
  refine ⟨?_, ?_, ?_⟩
  · intro h
    have hres : handleTap now st = ⟨[now], st.bpm⟩ := by
      rw [handleTap, if_pos h]
    rw [hres]
    exact ⟨rfl, rfl⟩
  · intro h
    simp only [handleTap, if_neg h, windowAfter]
    split <;> (split <;> rfl)
  · intro h5
    by_cases h : st.tapTimes ≠ [] ∧ 3000 < now - st.tapTimes.getLastD 0
    · rw [handleTap, if_pos h]
      simp
    · have hw : (windowAfter st now).length ≤ 5 := by
        simp only [windowAfter]
        split <;> simp_all
      simp only [handleTap, if_neg h]
      split <;> exact hw

/-- C8 witness: a tap at 4000 ms after a single tap at 0 resets the
window. -/
theorem tap_window_management_witness :
    ((TapState.mk [0] 120).tapTimes ≠ [] ∧
      3000 < 4000 - (TapState.mk [0] 120).tapTimes.getLastD 0)
    ∧ (handleTap 4000 ⟨[0], 120⟩).tapTimes = [4000]
    ∧ (handleTap 4000 ⟨[0], 120⟩).bpm = 120 :=
  ⟨⟨by decide, by decide⟩,
    ((tap_window_management ⟨[0], 120⟩ 4000).1 ⟨by decide, by decide⟩).1,
    ((tap_window_management ⟨[0], 120⟩ 4000).1 ⟨by decide, by decide⟩).2⟩

/-- C7 counterexample: manual numeric entry is NOT clamped from below at
the point of assignment: typing 5 stores tempo 5, which is outside
[MIN_BPM, MAX_BPM]. -/
theorem bpm_entry_counterexample :
    handleBpmChange (BpmInput.num 5) (some 120) = some 5
    ∧ ¬ MIN_BPM ≤ (5 : ℤ) := by
  constructor
  · rfl
  · decide

/-- C7 amended: tap-derived and dial-derived tempo assignments are clamped
to [MIN_BPM, MAX_BPM] at the point of assignment, but manual numeric
entry clamps only the upper bound (and can store an empty placeholder);
a below-minimum manual value is corrected to MIN_BPM only on blur, so the
scheduler can transiently read a below-minimum tempo between the two. -/
theorem bpm_setters_clamped (l : List ℤ) (change : ℚ) (prev b : Option ℤ)
    (v : ℤ) :
    (MIN_BPM ≤ tapBpmOf l ∧ tapBpmOf l ≤ MAX_BPM)
    ∧ (MIN_BPM ≤ updateBpmFromDelta change prev ∧
        updateBpmFromDelta change prev ≤ MAX_BPM)
    ∧ handleBpmChange (BpmInput.num v) b = some (min v MAX_BPM)
    ∧ MIN_BPM ≤ handleBpmBlur b := by
  refine ⟨tapBpmOf_bounds l, ?_, ?_, ?_⟩
  · simp only [updateBpmFromDelta]
    apply round_bpm_bounds
    · exact le_min (le_max_right _ _) (by norm_num [MIN_BPM, MAX_BPM])
    · exact min_le_right _ _
  · simp only [handleBpmChange]
    refine congrArg some ?_
    split <;> omega
  · cases b with
    | none => exact le_refl _
    | some w =>
      simp only [handleBpmBlur]
      split <;> omega

/-- C9: scheduleNote invokes the sound renderer exactly for the voices
whose grid entry at the given step is active; a step with no grid entry
produces no renderer call, and a step where only the kick row is active
produces exactly one renderer call (voice KICK) at the onset time. -/
theorem schedule_note_voices (g : Grid) (s : ℕ) (t : ℚ) :
    (∀ v : Voice, (v, t) ∈ scheduleNote g s t ↔ gridGet g (rowOf v, s) = true)
    ∧ ((gridGet g (Row.high, s) = false ∧ gridGet g (Row.mid, s) = false ∧
        gridGet g (Row.low, s) = false) → scheduleNote g s t = [])
    ∧ ((gridGet g (Row.high, s) = false ∧ gridGet g (Row.mid, s) = false ∧
        gridGet g (Row.low, s) = true) →
          scheduleNote g s t = [(Voice.kick, t)]) := by
  refine ⟨?_, ?_, ?_⟩
  · intro v
    cases hh : gridGet g (Row.high, s) <;> cases hm : gridGet g (Row.mid, s) <;>
      cases hl : gridGet g (Row.low, s) <;> cases v <;>
        simp [scheduleNote, rowOf, hh, hm, hl]
  · rintro ⟨hh, hm, hl⟩
    simp [scheduleNote, hh, hm, hl]
  · rintro ⟨hh, hm, hl⟩
    simp [scheduleNote, hh, hm, hl]

/-- C9 witness: a grid with only the kick row active at step 2 yields
exactly one renderer call. -/
theorem schedule_note_voices_witness :
    (gridGet [((Row.low, 2), true)] (Row.high, 2) = false ∧
      gridGet [((Row.low, 2), true)] (Row.mid, 2) = false ∧
      gridGet [((Row.low, 2), true)] (Row.low, 2) = true)
    ∧ scheduleNote [((Row.low, 2), true)] 2 0 = [(Voice.kick, 0)] :=
  ⟨⟨by decide, by decide, by decide⟩,
    (schedule_note_voices [((Row.low, 2), true)] 2 0).2.2
      ⟨by decide, by decide, by decide⟩⟩

/-- C10: toggling a grid cell negates exactly that cell, leaves every
other cell unchanged, and toggling the same cell twice restores the
active status of every cell. -/
theorem toggle_grid_frame (g : Grid) (row : Row) (col : ℕ) :
    gridGet (toggleGridParams g row col) (row, col) = ! gridGet g (row, col)
    ∧ (∀ p : Row × ℕ, p ≠ (row, col) →
        gridGet (toggleGridParams g row col) p = gridGet g p)
    ∧ (∀ p : Row × ℕ,
        gridGet (toggleGridParams (toggleGridParams g row col) row col) p =
          gridGet g p) := by
  refine ⟨?_, ?_, ?_⟩
  · simp [toggleGridParams, gridGet]
  · intro p hp
    simp only [toggleGridParams, gridGet]
    rw [if_neg (Ne.symm hp)]
  · intro p
    by_cases hp : p = (row, col)
    · subst hp
      simp [toggleGridParams, gridGet]
    · simp only [toggleGridParams, gridGet]
      rw [if_neg (fun h => hp h.symm), if_neg (fun h => hp h.symm)]

/-- C10 witness: toggling the hi-hat cell at column 0 leaves the snare
cell at column 0 unchanged. -/
theorem toggle_grid_frame_witness :
    ((Row.mid, 0) : Row × ℕ) ≠ (Row.high, 0)
    ∧ gridGet (toggleGridParams [] Row.high 0) (Row.mid, 0) =
        gridGet [] (Row.mid, 0) :=
  ⟨by decide, (toggle_grid_frame [] Row.high 0).2.1 (Row.mid, 0) (by decide)⟩

end Metronome
